import Mathlib

/-!
Verification of the HTML-to-structured-blocks parser in
`DataProjectReport/html_parser.py`.

The Python code first turns its input string into a DOM tree with
BeautifulSoup's `html.parser`; the repository's own logic then walks that
tree.  We embed the walked tree as `Node` (text nodes and element nodes; the
DOMs of all inputs considered here contain no comments or doctypes) and
translate each Python function over it.  `parse_html_content` receives
`Option (List Node)`: `none` models the Python `None` argument and `some dom`
an HTML string whose parsed top-level contents are `dom` (the empty string
parses to `some []`).

The one piece of external behaviour that the code re-invokes mid-pipeline is
`BeautifulSoup(para, "html.parser")` on an already-flattened plain-text
paragraph segment; it is modelled by `reparse`, which is faithful for
markup-free strings (no `<` and no `&`), and every general theorem whose
proof touches that model carries a markup-free hypothesis.
-/

namespace DataProjectReport

/-- A DOM node as produced by BeautifulSoup's `html.parser`:
a `NavigableString` or a `Tag` with a name, attributes and children. -/
inductive Node where
  | text : String → Node
  | elem : String → List (String × String) → List Node → Node

mutual

def Node.decEq : (a b : Node) → Decidable (a = b)
  | .text s, .text t =>
    if h : s = t then .isTrue (by rw [h]) else .isFalse (by simp [h])
  | .text _, .elem _ _ _ => .isFalse (by intro h; exact Node.noConfusion h)
  | .elem _ _ _, .text _ => .isFalse (by intro h; exact Node.noConfusion h)
  | .elem t1 a1 cs1, .elem t2 a2 cs2 =>
    if h1 : t1 = t2 then
      if h2 : a1 = a2 then
        match Node.decEqList cs1 cs2 with
        | .isTrue h3 => .isTrue (by rw [h1, h2, h3])
        | .isFalse h3 => .isFalse (by intro h; injection h; contradiction)
      else .isFalse (by intro h; injection h; contradiction)
    else .isFalse (by intro h; injection h; contradiction)

def Node.decEqList : (as bs : List Node) → Decidable (as = bs)
  | [], [] => .isTrue rfl
  | [], _ :: _ => .isFalse (by intro h; exact List.noConfusion h)
  | _ :: _, [] => .isFalse (by intro h; exact List.noConfusion h)
  | a :: as, b :: bs =>
    match Node.decEq a b with
    | .isTrue h1 =>
      match Node.decEqList as bs with
      | .isTrue h2 => .isTrue (by rw [h1, h2])
      | .isFalse h2 => .isFalse (by intro h; injection h; contradiction)
    | .isFalse h1 => .isFalse (by intro h; injection h; contradiction)

end

instance : DecidableEq Node := Node.decEq

/-- Model of `TextRun` in `html_parser.py`: one formatted run of text. -/
structure TextRun where
  text : String
  bold : Bool
  italic : Bool
  href : Option String
deriving DecidableEq

/-- Model of `Block` in `html_parser.py`: the tagged union
`ParagraphBlock {type:"paragraph", runs}` / `TableBlock {type:"table", headers, rows}`. -/
inductive Block where
  | paragraph : List TextRun → Block
  | table : List String → List (List String) → Block
deriving DecidableEq

/-- The characters Python's `str.strip()` removes at either end. -/
def isWsChar (c : Char) : Bool :=
  c == ' ' || c == '\t' || c == '\n' || c == '\r' || c == '\x0b' || c == '\x0c'

/-- Python `s.strip()`. -/
def pyStrip (s : String) : String :=
  String.mk (((s.data.dropWhile isWsChar).reverse.dropWhile isWsChar).reverse)

/-- Split a character list on every (non-overlapping, leftmost-first)
occurrence of two consecutive newlines. -/
def splitNlNl : List Char → List (List Char)
  | '\n' :: '\n' :: rest => [] :: splitNlNl rest
  | c :: rest =>
    match splitNlNl rest with
    | [] => [[c]]
    | seg :: segs => (c :: seg) :: segs
  | [] => [[]]

/-- Python `text.split("\n\n")`. -/
def splitPara (s : String) : List String := (splitNlNl s.data).map String.mk

/-- Python `sep.join(parts)`. -/
def joinSep (sep : String) : List String → String
  | [] => ""
  | [s] => s
  | s :: rest => s ++ sep ++ joinSep sep rest

/-- Is this node a `Tag` with the given name? -/
def named (t : String) : Node → Bool
  | .text _ => false
  | .elem s _ _ => s == t

/-- Is this node a `Tag` whose name belongs to the given list?
(`find_all(["td", "th"])`-style matching.) -/
def namedIn (ts : List String) : Node → Bool
  | .text _ => false
  | .elem s _ _ => ts.contains s

mutual

/-- All descendant text-node strings of a node, in document order
(what bs4's `_all_strings` yields before any stripping). -/
def strings : Node → List String
  | .text s => [s]
  | .elem _ _ cs => stringsL cs

def stringsL : List Node → List String
  | [] => []
  | c :: cs => strings c ++ stringsL cs

end

mutual

/-- All strict descendants of a node, in document (preorder) order —
the nodes that bs4's `find_all` scans when called on that node. -/
def desc : Node → List Node
  | .text _ => []
  | .elem _ _ cs => descL cs

/-- All nodes of a forest (each root followed by its descendants), in
document order — what `find_all` scans when called on the soup object. -/
def descL : List Node → List Node
  | [] => []
  | c :: cs => c :: desc c ++ descL cs

end

/-- Model of `node.get_text(separator=sep, strip=True)`: strip every descendant
string, drop the blank ones, join the rest with the separator. -/
def get_text (sep : String) (n : Node) : String :=
  joinSep sep (((strings n).map pyStrip).filter (fun s => s != ""))

/-- Model of `td.get_text(strip=True)` — the flattened, stripped text of a cell. -/
def cellText (n : Node) : String := get_text "" n

mutual

/-- Effect of `tag.decompose()` applied to every `script`/`style` element
(`for tag in soup(["script", "style"]): tag.decompose()`):
remove those subtrees wholesale. -/
def scrubN : Node → Option Node
  | .text s => some (.text s)
  | .elem t a cs =>
    if t == "script" || t == "style" then none else some (.elem t a (scrubL cs))

def scrubL : List Node → List Node
  | [] => []
  | c :: cs =>
    match scrubN c with
    | some c' => c' :: scrubL cs
    | none => scrubL cs

end

mutual

/-- Effect of `br.replace_with("\n")` applied to every `br` element
(`for br in soup.find_all("br"): br.replace_with("\n")`). -/
def replaceBr : Node → Node
  | .text s => .text s
  | .elem t a cs => if t == "br" then .text "\n" else .elem t a (replaceBrL cs)

def replaceBrL : List Node → List Node
  | [] => []
  | c :: cs => replaceBr c :: replaceBrL cs

end

/-- Recognised bold tags in `recurse`: `node.name in ("strong", "b")`. -/
def isBoldTag (t : String) : Bool := t == "strong" || t == "b"

/-- Recognised italic tags in `recurse`: `node.name in ("em", "i")`. -/
def isItalicTag (t : String) : Bool := t == "em" || t == "i"

/-- Python `or` on optional strings (`href or ...`): `None` and the empty
string are falsy and yield the right operand. -/
def pyOr : Option String → Option String → Option String
  | some s, b => if s == "" then b else some s
  | none, b => b

/-- The href contribution of an element in `recurse`:
`node.get("href") if node.name == "a" else None`. -/
def hrefContrib (t : String) (attrs : List (String × String)) : Option String :=
  if t == "a" then attrs.lookup "href" else none

mutual

/-- The inner `recurse(node, bold, italic, href)` of `parse_html_content`:
on a `NavigableString`, emit one run with the stripped text when it is
non-blank; on a `Tag`, accumulate the formatting state and recurse into the
children in order. -/
def recurse : Node → Bool → Bool → Option String → List TextRun
  | .text s, b, i, h => if pyStrip s == "" then [] else [⟨pyStrip s, b, i, h⟩]
  | .elem t attrs cs, b, i, h =>
    recurseL cs (b || isBoldTag t) (i || isItalicTag t) (pyOr h (hrefContrib t attrs))

def recurseL : List Node → Bool → Bool → Option String → List TextRun
  | [], _, _, _ => []
  | c :: cs, b, i, h => recurse c b i h ++ recurseL cs b i h

end

/-- Models `BeautifulSoup(para, "html.parser").contents` for a markup-free
string (no `<` and no `&`): the empty string yields no nodes, any other such
string a single text node.  Theorems that evaluate this model at
non-concrete strings carry a `markupFree` hypothesis. -/
def reparse (s : String) : List Node := if s == "" then [] else [.text s]

/-- A string that html.parser re-parses to itself as plain text:
no markup opener and no entity ampersand. -/
def markupFree (s : String) : Bool := !(s.data.any (fun c => c == '<' || c == '&'))

/-- Model of `recurse(BeautifulSoup(para, "html.parser"))`: the soup root is a tag
named `[document]`, so the formatting state reaching the re-parsed contents
is the initial `False/False/None`. -/
def runsOfPara (para : String) : List TextRun := recurseL (reparse para) false false none

/-- The table branch of `parse_html_content` (lines 42–50):
`headers` from every `th` descendant, `rows` from every `tr` descendant
keeping only rows with at least one `td`/`th` cell. -/
def tableBlockOf (n : Node) : Block :=
  let headers := ((desc n).filter (named "th")).map cellText
  let rows := ((desc n).filter (named "tr")).filterMap (fun tr =>
    let cells := ((desc tr).filter (namedIn ["td", "th"])).map cellText
    if cells.isEmpty then none else some cells)
  .table headers rows

/-- The body of the `for elem in elements:` loop of `parse_html_content`:
a `table` tag becomes one table block; any other node has its text
flattened, is skipped when that text is empty, and otherwise contributes one
paragraph block per blank-line-separated segment that yields runs. -/
def elemBlocks (n : Node) : List Block :=
  if named "table" n then [tableBlockOf n]
  else
    let t := get_text "\n" n
    if t == "" then []
    else
      (splitPara t).filterMap (fun para =>
        let runs := runsOfPara para
        if runs.isEmpty then none else some (.paragraph runs))

/-- The `for elem in elements:` loop itself, accumulating `blocks`. -/
def parseLoop : List Node → List Block
  | [] => []
  | n :: ns => elemBlocks n ++ parseLoop ns

/-- Model of `parse_html_content` on an already-built DOM: decompose scripts and
styles, normalise `br` elements, then run the top-level loop over
`soup.contents`. -/
def parseDom (dom : List Node) : List Block :=
  parseLoop (replaceBrL (scrubL dom))

/-- Model of `parse_html_content(html)`.  `none` is the Python `None` argument;
`html or ""` makes it parse the empty string, whose DOM is empty. -/
def parse_html_content (html : Option (List Node)) : List Block :=
  parseDom (html.getD [])

/-- One entry of the `tables` result of `clean_html_and_extract_tables`:
either a parsed `(headers, rows)` pair or — when
`preserve_tables_as_html=True` — the raw table markup, which we keep as the
table node itself rather than its serialisation. -/
inductive ExtractedTable where
  | parsed : List String → List (List String) → ExtractedTable
  | raw : Node → ExtractedTable
deriving DecidableEq

/-- The per-table `(headers, rows)` extraction of
`clean_html_and_extract_tables`: headers from the cells of the first `tr`
(empty when there is none), one row — kept even when empty — per remaining
`tr`. -/
def tableData (t : Node) : List String × List (List String) :=
  let trs := (desc t).filter (named "tr")
  let headers :=
    match trs.head? with
    | none => []
    | some fr => ((desc fr).filter (namedIn ["th", "td"])).map cellText
  let rows := (trs.drop 1).map (fun tr =>
    ((desc tr).filter (namedIn ["td", "th"])).map cellText)
  (headers, rows)

mutual

/-- Effect of `table.decompose()` applied to every table
(the tables are removed before the remaining text is flattened). -/
def stripTablesN : Node → Option Node
  | .text s => some (.text s)
  | .elem t a cs =>
    if t == "table" then none else some (.elem t a (stripTablesL cs))

def stripTablesL : List Node → List Node
  | [] => []
  | c :: cs =>
    match stripTablesN c with
    | some c' => c' :: stripTablesL cs
    | none => stripTablesL cs

end

/-- Model of `clean_html_and_extract_tables(html, preserve_tables_as_html)` on a
built DOM.  `none` models a falsy `html` argument (`None` or `""`), which
returns early.  Top-level tables are processed in document order; each is
then decomposed and the remaining text flattened with a single-space
separator.  (For tables nested inside another table the Python loop would
revisit an already-decomposed element; no input considered here nests
tables.) -/
def clean_html_and_extract_tables (html : Option (List Node))
    (preserve_tables_as_html : Bool) : String × List ExtractedTable :=
  match html with
  | none => ("", [])
  | some dom =>
    let tables := ((descL dom).filter (named "table")).map (fun t =>
      if preserve_tables_as_html then ExtractedTable.raw t
      else ExtractedTable.parsed (tableData t).1 (tableData t).2)
    let rest := stripTablesL dom
    let text :=
      joinSep " " (((stringsL rest).map pyStrip).filter (fun s => s != ""))
    (text, tables)

/-- Discriminator of the tagged union: is the block a table block? -/
def blockIsTable : Block → Bool
  | .paragraph _ => false
  | .table _ _ => true

/-- The `headers` field of a table block (empty for a paragraph block). -/
def blockHeaders : Block → List String
  | .paragraph _ => []
  | .table hs _ => hs

/-- The `rows` field of a table block (empty for a paragraph block). -/
def blockRows : Block → List (List String)
  | .paragraph _ => []
  | .table _ rs => rs

/-- Concatenation of the run texts of a paragraph block. -/
def blockText : Block → String
  | .paragraph rs => joinSep "" (rs.map TextRun.text)
  | .table _ _ => ""

/-- Guard used by the script/style decomposition pass. -/
def isScriptStyle (t : String) : Bool := t == "script" || t == "style"

mutual

/-- Does the tree contain a `script` or `style` element? -/
def hasScriptStyle : Node → Bool
  | .text _ => false
  | .elem t _ cs => isScriptStyle t || hasScriptStyleL cs

def hasScriptStyleL : List Node → Bool
  | [] => false
  | c :: cs => hasScriptStyle c || hasScriptStyleL cs

end

mutual

/-- Does the tree contain a `br` element? -/
def hasBr : Node → Bool
  | .text _ => false
  | .elem t _ cs => t == "br" || hasBrL cs

def hasBrL : List Node → Bool
  | [] => false
  | c :: cs => hasBr c || hasBrL cs

end

mutual

/-- Rewrite the attribute list of every element of a tree, leaving names,
text and structure unchanged. -/
def mapAttrsN (f : List (String × String) → List (String × String)) : Node → Node
  | .text s => .text s
  | .elem t a cs => .elem t (f a) (mapAttrsL f cs)

def mapAttrsL (f : List (String × String) → List (String × String)) :
    List Node → List Node
  | [] => []
  | c :: cs => mapAttrsN f c :: mapAttrsL f cs

end

mutual

/-- Every text node of a tree together with the name/attribute pairs of its
enclosing elements below the extraction root, outermost first, in document
(depth-first, left-to-right) order. -/
def textsWithAnc : Node → List (String × List (String × List (String × String)))
  | .text s => [(s, [])]
  | .elem t a cs => (textsWithAncL cs).map (fun p => (p.1, (t, a) :: p.2))

def textsWithAncL : List Node → List (String × List (String × List (String × String)))
  | [] => []
  | c :: cs => textsWithAnc c ++ textsWithAncL cs

end

/-- The run predicted for one text node from its ancestor chain: skip blank
text; otherwise the text is stripped, bold iff some enclosing tag is a
recognised bold tag, italic likewise, and the href is the fold of Python
`or` over the enclosing elements' link contributions, outermost first. -/
def runFromAnc (b i : Bool) (h : Option String)
    (p : String × List (String × List (String × String))) : Option TextRun :=
  if pyStrip p.1 == "" then none
  else some ⟨pyStrip p.1,
    b || p.2.any (fun ta => isBoldTag ta.1),
    i || p.2.any (fun ta => isItalicTag ta.1),
    p.2.foldl (fun hh ta => pyOr hh (hrefContrib ta.1 ta.2)) h⟩

/-- Ancestor-based description of run extraction started in the initial
state, against which `recurse` is compared. -/
def recurseSpec (n : Node) : List TextRun :=
  (textsWithAnc n).filterMap (runFromAnc false false none)

/-- Is the node an element (a bs4 `Tag`)? -/
def isElem : Node → Bool
  | .text _ => false
  | .elem _ _ _ => true

/-- A top-level element that the loop turns into exactly one paragraph
block: not a table, flattened text non-empty with a non-blank strip, no
blank-line occurrence, and markup-free (so that re-parsing the segment
reproduces it as plain text; see `reparse`). -/
def goodPara (n : Node) : Bool :=
  isElem n && !(named "table" n) && (get_text "\n" n != "")
    && (splitPara (get_text "\n" n) == [get_text "\n" n])
    && markupFree (get_text "\n" n)
    && (pyStrip (get_text "\n" n) != "")

/-- The node is left unchanged by script/style removal and by `br`
replacement (it contains neither kind of element). -/
def untouched (n : Node) : Bool :=
  decide (scrubN n = some n) && decide (replaceBr n = n)

/-- DOM of
`<table><tr><td rowspan="2">X</td><td>Y</td></tr><tr><td>Z</td></tr></table>`. -/
def rowspanTable : Node :=
  .elem "table" [] [
    .elem "tr" [] [.elem "td" [("rowspan", "2")] [.text "X"], .elem "td" [] [.text "Y"]],
    .elem "tr" [] [.elem "td" [] [.text "Z"]]]

/-- One-row table whose first cell declares `colspan=cv`, whose second
declares `rowspan=rv`, and whose third carries no span attributes. -/
def spanAttrTable (cv rv : String) : Node :=
  .elem "table" [] [.elem "tr" [] [
    .elem "td" [("colspan", cv)] [.text "X"],
    .elem "td" [("rowspan", rv)] [.text "Y"],
    .elem "td" [] [.text "Z"]]]

/-- DOM of `<p>A</p><script>evil()</script><p>B</p>`. -/
def scriptDom : List Node :=
  [.elem "p" [] [.text "A"], .elem "script" [] [.text "evil()"], .elem "p" [] [.text "B"]]

/-- Extraction root holding a link nested inside another link, followed by
two text nodes that carry the same (empty) formatting state. -/
def nestedLinkP : Node :=
  .elem "p" [] [
    .elem "a" [("href", "h1")] [.elem "a" [("href", "h2")] [.text "x"]],
    .elem "span" [] [.text "y"], .text "z"]

/-- DOM of `<p>See <a href="http://x">here</a> now</p>`. -/
def linkP : Node :=
  .elem "p" [] [.text "See ", .elem "a" [("href", "http://x")] [.text "here"], .text " now"]

/-- Paragraph whose flattened text splits on blank lines into the segments
`"a"`, `" "` and `"b"`; the middle segment yields no runs. -/
def blankSegP : Node := .elem "p" [] [.text "a\n\n \n\nb"]

/-- DOM of `<body><p>A</p><p>B</p></body>`: a document whose body element
holds two paragraph elements. -/
def bodyDom : List Node :=
  [.elem "body" [] [.elem "p" [] [.text "A"], .elem "p" [] [.text "B"]]]

/-- Root children used to witness the block-count theorem: two paragraph
elements around one table element. -/
def mixedDom : List Node :=
  [.elem "p" [] [.text "A"],
   .elem "table" [] [.elem "tr" [] [.elem "td" [] [.text "T"]]],
   .elem "p" [] [.text "B"]]

/-- DOM of `<p>line1<br>line2</p>`. -/
def brP : Node := .elem "p" [] [.text "line1", .elem "br" [] [], .text "line2"]

/-- Table used to witness header duplication:
`<table><tr><th>H</th><td>D</td></tr><tr><td>E</td></tr></table>`. -/
def headerTable : Node :=
  .elem "table" [] [
    .elem "tr" [] [.elem "th" [] [.text "H"], .elem "td" [] [.text "D"]],
    .elem "tr" [] [.elem "td" [] [.text "E"]]]

/-- The first row of `headerTable`. -/
def headerTr : Node := .elem "tr" [] [.elem "th" [] [.text "H"], .elem "td" [] [.text "D"]]

/-- The header cell of `headerTable`. -/
def headerTh : Node := .elem "th" [] [.text "H"]

/-- A block is well-formed for claim C7 purposes when a paragraph block
carries at least one run. -/
def paragraphNonempty : Block → Bool
  | .paragraph rs => !rs.isEmpty
  | .table _ _ => true

mutual

theorem scrubN_idem : ∀ (n m : Node), scrubN n = some m → scrubN m = some m
  | .text s, m => by
    intro h
    simp only [scrubN, Option.some.injEq] at h
    subst h
    rfl
  | .elem t a cs, m => by
    intro h
    simp only [scrubN] at h
    by_cases hb : isScriptStyle t = true
    · simp [isScriptStyle] at hb
      rcases hb with hb | hb <;> simp [hb] at h
    · have hb' : (t == "script" || t == "style") = false := by
        simpa [isScriptStyle] using hb
      rw [if_neg (by simp [hb'])] at h
      cases h
      simp only [scrubN]
      rw [if_neg (by simp [hb']), scrubL_idem cs]

theorem scrubL_idem : ∀ (ns : List Node), scrubL (scrubL ns) = scrubL ns
  | [] => rfl
  | c :: cs => by
    cases hc : scrubN c with
    | none => simp only [scrubL, hc]; exact scrubL_idem cs
    | some m =>
      simp only [scrubL, hc, scrubN_idem c m hc]
      rw [scrubL_idem cs]

end

mutual

theorem scrubN_hasScriptStyle : ∀ (n m : Node), scrubN n = some m → hasScriptStyle m = false
  | .text s, m => by
    intro h
    simp only [scrubN, Option.some.injEq] at h
    subst h
    rfl
  | .elem t a cs, m => by
    intro h
    simp only [scrubN] at h
    by_cases hb : isScriptStyle t = true
    · simp [isScriptStyle] at hb
      rcases hb with hb | hb <;> simp [hb] at h
    · have hb' : (t == "script" || t == "style") = false := by
        simpa [isScriptStyle] using hb
      rw [if_neg (by simp [hb'])] at h
      cases h
      simp only [hasScriptStyle, isScriptStyle, hb',
        scrubL_hasScriptStyle cs, Bool.or_false]

theorem scrubL_hasScriptStyle : ∀ (ns : List Node), hasScriptStyleL (scrubL ns) = false
  | [] => rfl
  | c :: cs => by
    cases hc : scrubN c with
    | none => simp only [scrubL, hc]; exact scrubL_hasScriptStyle cs
    | some m =>
      simp only [scrubL, hc, hasScriptStyleL, scrubN_hasScriptStyle c m hc,
        Bool.false_or]
      exact scrubL_hasScriptStyle cs

end

mutual

theorem replaceBr_hasBr : ∀ (n : Node), hasBr (replaceBr n) = false
  | .text _ => rfl
  | .elem t a cs => by
    by_cases hb : (t == "br") = true
    · simp [replaceBr, hb, hasBr]
    · simp only [replaceBr, hb, Bool.false_eq_true, if_false, hasBr,
        replaceBrL_hasBr cs, Bool.or_false]

theorem replaceBrL_hasBr : ∀ (ns : List Node), hasBrL (replaceBrL ns) = false
  | [] => rfl
  | c :: cs => by
    simp only [replaceBrL, hasBrL, replaceBr_hasBr c, replaceBrL_hasBr cs,
      Bool.or_false]

end

theorem blockRows_tableBlockOf_nonempty (n : Node) :
    (blockRows (tableBlockOf n)).all (fun r => !r.isEmpty) = true := by
  simp only [tableBlockOf, blockRows, List.all_eq_true]
  intro r hr
  rcases List.mem_filterMap.mp hr with ⟨tr, _, hmk⟩
  by_cases hc : (((desc tr).filter (namedIn ["td", "th"])).map cellText).isEmpty = true
  · rw [if_pos hc] at hmk; cases hmk
  · rw [if_neg hc] at hmk
    cases hmk
    simpa using hc

theorem elemBlocks_paragraphNonempty (n : Node) :
    (elemBlocks n).all paragraphNonempty = true := by
  simp only [elemBlocks]
  by_cases ht : named "table" n = true
  · simp [ht, tableBlockOf, paragraphNonempty]
  · simp only [ht, Bool.false_eq_true, if_false]
    by_cases he : (get_text "\n" n == "") = true
    · simp [he]
    · simp only [he, Bool.false_eq_true, if_false, List.all_eq_true]
      intro b hb
      rcases List.mem_filterMap.mp hb with ⟨para, _, hmk⟩
      by_cases hrc : (runsOfPara para).isEmpty = true
      · rw [if_pos hrc] at hmk; cases hmk
      · rw [if_neg hrc] at hmk
        cases hmk
        simpa [paragraphNonempty] using hrc

theorem parseLoop_paragraphNonempty : ∀ (ns : List Node),
    (parseLoop ns).all paragraphNonempty = true
  | [] => rfl
  | c :: cs => by
    simp only [parseLoop, List.all_append, elemBlocks_paragraphNonempty c,
      parseLoop_paragraphNonempty cs, Bool.and_self]

theorem cleaned_of_untouched : ∀ (ns : List Node),
    (∀ n ∈ ns, untouched n = true) → replaceBrL (scrubL ns) = ns
  | [] => fun _ => rfl
  | c :: cs => by
    intro h
    have hc := h c (List.mem_cons_self c cs)
    have hcs := cleaned_of_untouched cs (fun n hn => h n (List.mem_cons_of_mem c hn))
    simp only [untouched, Bool.and_eq_true, decide_eq_true_eq] at hc
    simp only [scrubL, hc.1, replaceBrL, hc.2, hcs]

theorem goodPara_not_table (n : Node) (h : goodPara n = true) :
    named "table" n = false := by
  simp only [goodPara, Bool.and_eq_true] at h
  simpa using h.1.1.1.1.2

theorem elemBlocks_goodPara (n : Node) (h : goodPara n = true) :
    elemBlocks n = [.paragraph [⟨pyStrip (get_text "\n" n), false, false, none⟩]] := by
  have hnt := goodPara_not_table n h
  simp only [goodPara, Bool.and_eq_true, bne_iff_ne, ne_eq, beq_iff_eq] at h
  obtain ⟨⟨⟨⟨-, hne⟩, hsp⟩, -⟩, hps⟩ := h
  have hruns : runsOfPara (get_text "\n" n) =
      [⟨pyStrip (get_text "\n" n), false, false, none⟩] := by
    simp only [runsOfPara, reparse]
    rw [if_neg (by simpa using hne)]
    simp only [recurseL, recurse]
    rw [if_neg (by simpa using hps)]
    simp
  simp only [elemBlocks, hnt, Bool.false_eq_true, if_false]
  rw [if_neg (by simpa using hne), hsp]
  simp [List.filterMap_cons, hruns]

theorem parseLoop_kinds : ∀ (ns : List Node),
    (∀ n ∈ ns, named "table" n = true ∨ goodPara n = true) →
    (parseLoop ns).map blockIsTable = ns.map (fun n => named "table" n)
  | [] => fun _ => rfl
  | c :: cs => by
    intro h
    have hc := h c (List.mem_cons_self c cs)
    have ih := parseLoop_kinds cs (fun n hn => h n (List.mem_cons_of_mem c hn))
    simp only [parseLoop, List.map_append, List.map_cons, ih]
    rcases hc with ht | hp
    · simp [elemBlocks, ht, tableBlockOf, blockIsTable]
    · rw [elemBlocks_goodPara c hp]
      simp [blockIsTable, goodPara_not_table c hp]

mutual

theorem mem_desc_trans : ∀ (n m x : Node), m ∈ desc n → x ∈ desc m → x ∈ desc n
  | .text _, m, x => by simp [desc]
  | .elem t a cs, m, x => by
    simp only [desc]
    exact mem_descL_trans cs m x

theorem mem_descL_trans : ∀ (ns : List Node) (m x : Node),
    m ∈ descL ns → x ∈ desc m → x ∈ descL ns
  | [], m, x => by simp [descL]
  | c :: cs, m, x => by
    intro hm hx
    simp only [descL, List.mem_cons, List.mem_append] at hm ⊢
    rcases hm with (h | h) | h
    · subst h
      exact Or.inl (Or.inr hx)
    · exact Or.inl (Or.inr (mem_desc_trans c m x h hx))
    · exact Or.inr (mem_descL_trans cs m x h hx)

end

mutual

theorem strings_mapAttrsN (f : List (String × String) → List (String × String)) :
    ∀ n, strings (mapAttrsN f n) = strings n
  | .text _ => rfl
  | .elem t a cs => by
    simp only [mapAttrsN, strings]
    exact stringsL_mapAttrsL f cs

theorem stringsL_mapAttrsL (f : List (String × String) → List (String × String)) :
    ∀ ns, stringsL (mapAttrsL f ns) = stringsL ns
  | [] => rfl
  | c :: cs => by
    simp only [mapAttrsL, stringsL, strings_mapAttrsN f c, stringsL_mapAttrsL f cs]

end

mutual

theorem desc_mapAttrsN (f : List (String × String) → List (String × String)) :
    ∀ n, desc (mapAttrsN f n) = (desc n).map (mapAttrsN f)
  | .text _ => rfl
  | .elem t a cs => by
    simp only [mapAttrsN, desc]
    exact descL_mapAttrsL f cs

theorem descL_mapAttrsL (f : List (String × String) → List (String × String)) :
    ∀ ns, descL (mapAttrsL f ns) = (descL ns).map (mapAttrsN f)
  | [] => rfl
  | c :: cs => by
    simp only [mapAttrsL, descL, List.map_cons, List.map_append,
      desc_mapAttrsN f c, descL_mapAttrsL f cs]

end

theorem named_mapAttrsN (f : List (String × String) → List (String × String))
    (t : String) : ∀ n, named t (mapAttrsN f n) = named t n
  | .text _ => rfl
  | .elem _ _ _ => rfl

theorem namedIn_mapAttrsN (f : List (String × String) → List (String × String))
    (ts : List String) : ∀ n, namedIn ts (mapAttrsN f n) = namedIn ts n
  | .text _ => rfl
  | .elem _ _ _ => rfl

theorem cellText_mapAttrsN (f : List (String × String) → List (String × String))
    (n : Node) : cellText (mapAttrsN f n) = cellText n := by
  simp [cellText, get_text, strings_mapAttrsN]

theorem cells_mapAttrsN (f : List (String × String) → List (String × String))
    (tr : Node) :
    ((desc (mapAttrsN f tr)).filter (namedIn ["td", "th"])).map cellText =
      ((desc tr).filter (namedIn ["td", "th"])).map cellText := by
  rw [desc_mapAttrsN, List.filter_map, List.map_map]
  simp only [Function.comp_def]
  rw [List.filter_congr (fun a _ => namedIn_mapAttrsN f ["td", "th"] a)]
  exact List.map_congr_left (fun a _ => cellText_mapAttrsN f a)

theorem tableBlockOf_mapAttrsN (f : List (String × String) → List (String × String))
    (n : Node) : tableBlockOf (mapAttrsN f n) = tableBlockOf n := by
  simp only [tableBlockOf]
  rw [desc_mapAttrsN]
  congr 1
  · rw [List.filter_map, List.map_map]
    simp only [Function.comp_def]
    rw [List.filter_congr (fun a _ => named_mapAttrsN f "th" a)]
    exact List.map_congr_left (fun a _ => cellText_mapAttrsN f a)
  · rw [List.filter_map, List.filterMap_map]
    simp only [Function.comp_def]
    rw [List.filter_congr (fun a _ => named_mapAttrsN f "tr" a)]
    apply List.filterMap_congr
    intro tr _
    simp only [cells_mapAttrsN f tr]

mutual

theorem recurse_eq_spec : ∀ (n : Node) (b i : Bool) (h : Option String),
    recurse n b i h = (textsWithAnc n).filterMap (runFromAnc b i h)
  | .text s, b, i, h => by
    simp only [recurse, textsWithAnc, List.filterMap_cons, List.filterMap_nil, runFromAnc]
    by_cases hs : (pyStrip s == "") = true
    · simp [hs]
    · simp [hs]
  | .elem t a cs, b, i, h => by
    simp only [recurse, textsWithAnc, List.filterMap_map]
    have hfun : (runFromAnc b i h ∘ fun p => (p.1, (t, a) :: p.2)) =
        runFromAnc (b || isBoldTag t) (i || isItalicTag t) (pyOr h (hrefContrib t a)) := by
      funext p
      simp [runFromAnc, Bool.or_assoc]
    rw [hfun]
    exact recurseL_eq_spec cs (b || isBoldTag t) (i || isItalicTag t)
      (pyOr h (hrefContrib t a))

theorem recurseL_eq_spec : ∀ (ns : List Node) (b i : Bool) (h : Option String),
    recurseL ns b i h = (textsWithAncL ns).filterMap (runFromAnc b i h)
  | [], _, _, _ => rfl
  | c :: cs, b, i, h => by
    simp only [recurseL, textsWithAncL, List.filterMap_append,
      recurse_eq_spec c b i h, recurseL_eq_spec cs b i h]

end

/-- Claim C1, counterexample.  The claim says the emitted table block is a
rectangular matrix with a synthetic placeholder filling the position covered
by the first row's `rowspan=2`, so that both rows of the example table have
2 cells.  The code builds no placeholders: on the example table row 0 has 2
cells and row 1 has only 1, so not every row has length 2. -/
theorem C1_counterexample :
    parse_html_content (some [rowspanTable]) = [.table [] [["X", "Y"], ["Z"]]]
    ∧ ((parse_html_content (some [rowspanTable])).all fun b =>
        (blockRows b).all (fun r => r.length == 2)) = false := by
  decide

/-- Claim C1, amended.  The emitted table block's rows are the per-source-row
lists of the actual `td`/`th` cell texts: `colSpan`/`rowSpan` are not
honoured and no placeholder cells are synthesised, so rows may differ in
length (the example resolves to row lengths 2 and 1); the only shape
guarantee is that no emitted row is empty. -/
theorem C1_amended :
    (∀ n : Node, (blockRows (tableBlockOf n)).all (fun r => !r.isEmpty) = true)
    ∧ parse_html_content (some [rowspanTable]) = [.table [] [["X", "Y"], ["Z"]]]
    ∧ (parse_html_content (some [rowspanTable])).map (fun b => (blockRows b).map List.length)
        = [[2, 1]] :=
  ⟨blockRows_tableBlockOf_nonempty, by decide, by decide⟩

/-- Claim C2.  When building a table block the `colspan`/`rowspan`
attributes are never consulted: rewriting every element's attribute list in
any way leaves the table block unchanged, and on a concrete one-row table
every cell occupies exactly one entry whatever its declared span value is —
absent, non-numeric, zero or negative spans all behave as span 1, never
shrink the produced row, and never cause an error. -/
theorem C2_spans_never_consulted :
    (∀ (f : List (String × String) → List (String × String)) (n : Node),
      tableBlockOf (mapAttrsN f n) = tableBlockOf n)
    ∧ ∀ cv rv : String,
        parse_html_content (some [spanAttrTable cv rv]) = [.table [] [["X", "Y", "Z"]]] :=
  ⟨tableBlockOf_mapAttrsN, fun _ _ => rfl⟩

/-- Claim C3.  Both entry points are total over the embedded DOMs (the
Python code has no raise path), and on null or empty input they return the
empty results: `parse_html_content` yields an empty block sequence and
`clean_html_and_extract_tables` yields empty text and an empty table list,
for either value of the preserve-tables flag. -/
theorem C3_null_empty_graceful :
    parse_html_content none = [] ∧ parse_html_content (some []) = []
    ∧ (∀ preserve : Bool, clean_html_and_extract_tables none preserve = ("", []))
    ∧ (∀ preserve : Bool, clean_html_and_extract_tables (some []) preserve = ("", [])) := by
  refine ⟨rfl, rfl, fun p => rfl, fun p => ?_⟩
  cases p <;> rfl

/-- Claim C4.  Script and style subtrees never contribute to the output:
parsing is invariant under first removing every `script`/`style` subtree,
the removal pass leaves no such element behind, and on the DOM of
`<p>A</p><script>evil()</script><p>B</p>` the parser emits exactly the two
paragraph blocks `"A"` and `"B"` with nothing derived from the script. -/
theorem C4_scripts_styles_never_leak :
    (∀ dom : List Node,
      parse_html_content (some (scrubL dom)) = parse_html_content (some dom)
      ∧ hasScriptStyleL (scrubL dom) = false)
    ∧ parse_html_content (some scriptDom) =
      [.paragraph [⟨"A", false, false, none⟩], .paragraph [⟨"B", false, false, none⟩]] := by
  refine ⟨fun dom => ⟨?_, scrubL_hasScriptStyle dom⟩, by decide⟩
  simp [parse_html_content, parseDom, scrubL_idem]

/-- Claim C5, counterexample.  On a paragraph holding a link nested inside a
link and two further unformatted text nodes, run extraction keeps the
outermost truthy href: the run for `x` carries `h1`, not the nearest outer
link's `h2`; and the two adjacent runs `y` and `z` carry identical
formatting state, so run boundaries do not occur exactly at
formatting-state changes. -/
theorem C5_counterexample :
    recurse nestedLinkP false false none =
      [⟨"x", false, false, some "h1"⟩, ⟨"y", false, false, none⟩,
        ⟨"z", false, false, none⟩]
    ∧ (decide (∃ r ∈ recurse nestedLinkP false false none, r.href = some "h2")) = false
    ∧ ((recurse nestedLinkP false false none).map (fun r => (r.bold, r.italic, r.href)))[1]?
      = ((recurse nestedLinkP false false none).map (fun r => (r.bold, r.italic, r.href)))[2]? := by
  decide

/-- Claim C5, amended.  Run extraction threads formatting state monotonically
downward: started in the initial state it emits, in document (depth-first,
left-to-right) order, one run per non-blank text node, whose bold flag is
true iff some enclosing tag within the extraction root is a recognised bold
tag, italic likewise, and whose href is the Python-`or` fold of the
enclosing links' href contributions, outermost first — so an outer link's
non-empty href is never overridden and bold/italic never turn off inside a
subtree; adjacent runs may carry identical state (no merging at
formatting-state boundaries). -/
theorem C5_amended : ∀ n : Node, recurse n false false none = recurseSpec n :=
  fun n => recurse_eq_spec n false false none

/-- Claim C6, counterexample.  The extractor strips each text node (so the
surrounding whitespace of `"  pad  "` is not preserved), and on the DOM of
`<p>See <a href="http://x">here</a> now</p>` the parser flattens the
paragraph before re-extracting runs, yielding one run `"See\nhere\nnow"`
with no href rather than the three runs `"See "`, `"here"`, `" now"`. -/
theorem C6_counterexample :
    parse_html_content (some [linkP]) =
      [.paragraph [⟨"See\nhere\nnow", false, false, none⟩]]
    ∧ (decide (parse_html_content (some [linkP]) =
        [.paragraph [⟨"See ", false, false, none⟩,
          ⟨"here", false, false, some "http://x"⟩,
          ⟨" now", false, false, none⟩]])) = false
    ∧ (decide (recurse (.text "  pad  ") false false none =
        [⟨"  pad  ", false, false, none⟩])) = false := by
  decide

/-- Claim C6, amended.  On a text node whose stripped text is non-blank the
extractor emits exactly one run carrying the stripped text (surrounding
whitespace removed) and the inherited state, and on a blank text node it
emits nothing; through `parse_html_content` the example paragraph is
flattened first, so it yields the single run `"See\nhere\nnow"` with
`href=None`. -/
theorem C6_amended :
    (∀ (s : String) (b i : Bool) (h : Option String),
      recurse (.text s) b i h = if pyStrip s == "" then [] else [⟨pyStrip s, b, i, h⟩])
    ∧ parse_html_content (some [linkP]) =
      [.paragraph [⟨"See\nhere\nnow", false, false, none⟩]] :=
  ⟨fun _ _ _ _ => rfl, by decide⟩

/-- Claim C7, counterexample.  The text of `blankSegP` splits into the
segments `"a"`, `" "` and `"b"`; the blank middle segment yields zero runs
and the code drops it (`if runs: blocks.append(...)`), so the output holds
two paragraph blocks and no empty-run paragraph block, contradicting the
claimed append-empty policy. -/
theorem C7_counterexample :
    splitPara (get_text "\n" blankSegP) = ["a", " ", "b"]
    ∧ runsOfPara " " = []
    ∧ parse_html_content (some [blankSegP]) =
      [.paragraph [⟨"a", false, false, none⟩], .paragraph [⟨"b", false, false, none⟩]]
    ∧ (decide (Block.paragraph [] ∈ parse_html_content (some [blankSegP]))) = false := by
  decide

/-- Claim C7, amended.  A paragraph segment that yields zero runs is
silently dropped, so every paragraph block the parser emits carries at
least one run; on the example with a blank middle segment only the two
non-blank segments produce blocks. -/
theorem C7_amended :
    (∀ dom : List Node, (parse_html_content (some dom)).all paragraphNonempty = true)
    ∧ parse_html_content (some [blankSegP]) =
      [.paragraph [⟨"a", false, false, none⟩], .paragraph [⟨"b", false, false, none⟩]] :=
  ⟨fun _ => parseLoop_paragraphNonempty _, by decide⟩

/-- Claim C8, counterexample.  The loop iterates over `soup.contents`, never
over the body's children: on the DOM of `<body><p>A</p><p>B</p></body>` the
body element is treated as a single paragraph-bearing unit, producing one
block with text `"A\nB"` instead of the two blocks the claim requires. -/
theorem C8_counterexample :
    parse_html_content (some bodyDom) = [.paragraph [⟨"A\nB", false, false, none⟩]]
    ∧ (decide ((parse_html_content (some bodyDom)).length = 2)) = false := by
  decide

/-- Claim C8, amended.  The parser iterates over the top-level children of
the document root (`soup.contents`) even when a body element is present; for
a root whose children contain no script/style/br elements and are each
either a table element or a non-table element with non-blank, blank-line-free,
markup-free text, the output has exactly one block per child, in document
order, table children giving table blocks and the rest paragraph blocks. -/
theorem C8_amended (dom : List Node)
    (h : ∀ n ∈ dom, untouched n = true ∧ (named "table" n = true ∨ goodPara n = true)) :
    (parse_html_content (some dom)).map blockIsTable = dom.map (fun n => named "table" n)
    ∧ (parse_html_content (some dom)).length = dom.length := by
  have hclean : replaceBrL (scrubL dom) = dom :=
    cleaned_of_untouched dom (fun n hn => (h n hn).1)
  have hk : (parseLoop dom).map blockIsTable = dom.map (fun n => named "table" n) :=
    parseLoop_kinds dom (fun n hn => (h n hn).2)
  constructor
  · simpa [parse_html_content, parseDom, hclean] using hk
  · have hlen := congrArg List.length hk
    simpa [parse_html_content, parseDom, hclean] using hlen

/-- Claim C8, witness: the amended theorem applied to two paragraph elements
around one table element. -/
theorem C8_witness :
    (parse_html_content (some mixedDom)).map blockIsTable =
      mixedDom.map (fun n => named "table" n)
    ∧ (parse_html_content (some mixedDom)).length = mixedDom.length :=
  C8_amended mixedDom (by decide)

/-- Claim C9.  Every `br` element is replaced by a literal newline before
segmentation — the replacement pass leaves no `br` element anywhere — and on
the DOM of `<p>line1<br>line2</p>` the emitted runs concatenate to
`"line1\nline2"` with no markup leaking into the text. -/
theorem C9_br_normalized :
    (∀ dom : List Node, hasBrL (replaceBrL dom) = false)
    ∧ parse_html_content (some [brP]) =
      [.paragraph [⟨"line1\nline2", false, false, none⟩]]
    ∧ (parse_html_content (some [brP])).map blockText = ["line1\nline2"] :=
  ⟨replaceBrL_hasBr, by decide, by decide⟩

/-- Claim C10.  The table block's headers are the stripped texts of every
`th` descendant of the table in document order; a `th` cell that sits inside
a `tr` additionally appears as an ordinary cell of that row inside `rows`
(header cells are duplicated between the two), and a source row with no
`td`/`th` cells contributes no row at all (every emitted row is
non-empty). -/
theorem C10_th_in_headers_and_rows (t trN cell : Node)
    (h1 : trN ∈ (desc t).filter (named "tr"))
    (h2 : cell ∈ (desc trN).filter (namedIn ["td", "th"]))
    (h3 : named "th" cell = true) :
    blockHeaders (tableBlockOf t) = ((desc t).filter (named "th")).map cellText
    ∧ cellText cell ∈ blockHeaders (tableBlockOf t)
    ∧ (∃ r ∈ blockRows (tableBlockOf t), cellText cell ∈ r)
    ∧ (blockRows (tableBlockOf t)).all (fun r => !r.isEmpty) = true := by
  have htr : trN ∈ desc t := (List.mem_filter.mp h1).1
  have htrname : named "tr" trN = true := (List.mem_filter.mp h1).2
  have hcell : cell ∈ desc trN := (List.mem_filter.mp h2).1
  have hct : cell ∈ desc t := mem_desc_trans t trN cell htr hcell
  have hmem : cellText cell ∈ ((desc trN).filter (namedIn ["td", "th"])).map cellText :=
    List.mem_map_of_mem cellText h2
  refine ⟨rfl, ?_, ?_, blockRows_tableBlockOf_nonempty t⟩
  · simp only [tableBlockOf, blockHeaders]
    exact List.mem_map_of_mem cellText (List.mem_filter.mpr ⟨hct, h3⟩)
  · simp only [tableBlockOf, blockRows]
    refine ⟨((desc trN).filter (namedIn ["td", "th"])).map cellText, ?_, hmem⟩
    apply List.mem_filterMap.mpr
    refine ⟨trN, List.mem_filter.mpr ⟨htr, htrname⟩, ?_⟩
    rw [if_neg]
    intro hempty
    rw [List.isEmpty_iff] at hempty
    rw [hempty] at hmem
    exact List.not_mem_nil _ hmem

/-- Claim C10, witness: the theorem applied to a concrete table whose first
row holds one header cell and one data cell. -/
theorem C10_witness :
    blockHeaders (tableBlockOf headerTable) =
      ((desc headerTable).filter (named "th")).map cellText
    ∧ cellText headerTh ∈ blockHeaders (tableBlockOf headerTable)
    ∧ (∃ r ∈ blockRows (tableBlockOf headerTable), cellText headerTh ∈ r)
    ∧ (blockRows (tableBlockOf headerTable)).all (fun r => !r.isEmpty) = true :=
  C10_th_in_headers_and_rows headerTable headerTr headerTh (by decide) (by decide)
    (by decide)

end DataProjectReport
